import Mathlib

/- Verification of the semantic-variability analysis pipeline of
   MedVarSemantica_FINAL.py: construction extraction (`extrair_svo`,
   `extrair_n_adj`, `extrair_adj_n`), WordNet-based domain classification
   (`obter_dominios` with `mapeamento_dominios`), light-verb filtering,
   variability aggregation (pandas groupby modelled over lists) and the
   coverage percentage.  Machine strings are Lean `String`s; Python's
   `strip`/`lower`/string comparison are modelled by executable
   character-list helpers so that concrete instances evaluate. -/

set_option maxHeartbeats 1000000

/-- Models Python's `str(word).strip() == ""`: every character is whitespace
(equivalently, stripping leaves the empty string). -/
def isBlank (w : String) : Bool := w.data.all Char.isWhitespace

/-- Models Python's `str.lower()`: lowercase every character. -/
def lowerStr (s : String) : String := ⟨s.data.map Char.toLower⟩

/-- Lexicographic comparison of character lists by code point, as Python's
`<=` on strings behaves; used to model `sorted(...)` on strings. -/
def listCharLe : List Char → List Char → Bool
  | [], _ => true
  | _ :: _, [] => false
  | a :: as, b :: bs => if a < b then true else if b < a then false else listCharLe as bs

/-- String order used by `sorted` in the source. -/
def strLe (a b : String) : Bool := listCharLe a.data b.data

/-- An annotated token as produced by the external dependency parser
(spaCy), consumed read-only by the extractors.  Field names follow the
spaCy attributes the source reads: surface form `text`, `lemma_`, coarse
part-of-speech `pos_`, dependency label `dep_`, linear position `i`
(`token.i`) and the linear position `headI` of the syntactic head
(`token.head.i`). -/
structure Token where
  text : String
  lemma_ : String
  pos_ : String
  dep_ : String
  i : Nat
  headI : Nat
deriving DecidableEq, Repr, Inhabited

/-- The record returned by `extrair_svo` (keys of the Python dict). -/
structure SVO where
  frase_limpa : String
  sujeito : String
  verbo : String
  objeto : String
deriving DecidableEq, Repr

/-- Loop state of `extrair_svo`: the Python variables `sujeito`, `verbo`,
`objeto`, each `None` until (re)assigned by a matching token. -/
structure SVOState where
  sujeito : Option String
  verbo : Option String
  objeto : Option String
deriving DecidableEq, Repr

/-- The object-dependency test `token.dep_ in {"obj", "dobj", "obl", "attr"}`. -/
def isObjDep (d : String) : Bool := d == "obj" || d == "dobj" || d == "obl" || d == "attr"

/-- One iteration of the token loop of `extrair_svo` (the if/elif chain). -/
def svoStep (s : SVOState) (t : Token) : SVOState :=
  if t.dep_ == "ROOT" && t.pos_ == "VERB" then { s with verbo := some t.lemma_ }
  else if t.dep_ == "nsubj" then { s with sujeito := some t.text }
  else if isObjDep t.dep_ then { s with objeto := some t.lemma_ }
  else s

/-- Python truthiness of an optional string (`None` and `""` are falsy). -/
def optTruthy : Option String → Bool
  | none => false
  | some s => !(s == "")

/-- `extrair_svo(frase)` of the source, with the parse `doc` passed in
explicitly (the call `nlp(frase)` is the external parser).  Scans the
tokens updating `sujeito`/`verbo`/`objeto`, then returns the record iff
`verbo and (sujeito or objeto)` is truthy, defaulting absent fields
to `""`. -/
def extrair_svo (frase : String) (doc : List Token) : Option SVO :=
  let st := doc.foldl svoStep ⟨none, none, none⟩
  if optTruthy st.verbo && (optTruthy st.sujeito || optTruthy st.objeto) then
    some ⟨frase, st.sujeito.getD "", st.verbo.getD "", st.objeto.getD ""⟩
  else none

lemma svoStep_sujeito (s : SVOState) (t : Token) :
    (svoStep s t).sujeito = if t.dep_ == "nsubj" then some t.text else s.sujeito := by
  by_cases hr : (t.dep_ == "ROOT" && t.pos_ == "VERB") = true
  · have hd : t.dep_ = "ROOT" := by
      have := (Bool.and_eq_true _ _).mp hr
      exact beq_iff_eq.mp this.1
    have hn : (t.dep_ == "nsubj") = false := by
      rw [hd]; decide
    simp [svoStep, hr, hn]
  · by_cases hn : (t.dep_ == "nsubj") = true
    · simp [svoStep, hr, hn]
    · by_cases ho : isObjDep t.dep_ = true
      · simp [svoStep, hr, hn, ho]
      · simp [svoStep, hr, hn, ho]

lemma svoStep_verbo (s : SVOState) (t : Token) :
    (svoStep s t).verbo =
      if t.dep_ == "ROOT" && t.pos_ == "VERB" then some t.lemma_ else s.verbo := by
  by_cases hr : (t.dep_ == "ROOT" && t.pos_ == "VERB") = true
  · simp [svoStep, hr]
  · by_cases hn : (t.dep_ == "nsubj") = true
    · simp [svoStep, hr, hn]
    · by_cases ho : isObjDep t.dep_ = true
      · simp [svoStep, hr, hn, ho]
      · simp [svoStep, hr, hn, ho]

lemma svoStep_objeto (s : SVOState) (t : Token) :
    (svoStep s t).objeto = if isObjDep t.dep_ then some t.lemma_ else s.objeto := by
  by_cases ho : isObjDep t.dep_ = true
  · have hobj : ((t.dep_ = "obj" ∨ t.dep_ = "dobj") ∨ t.dep_ = "obl") ∨ t.dep_ = "attr" := by
      simpa [isObjDep, beq_iff_eq] using ho
    have hr : (t.dep_ == "ROOT" && t.pos_ == "VERB") = false := by
      rcases hobj with ((h | h) | h) | h <;> rw [h] <;> simp
    have hn : (t.dep_ == "nsubj") = false := by
      rcases hobj with ((h | h) | h) | h <;> rw [h] <;> decide
    simp [svoStep, hr, hn, ho]
  · by_cases hr : (t.dep_ == "ROOT" && t.pos_ == "VERB") = true
    · simp [svoStep, hr, ho]
    · by_cases hn : (t.dep_ == "nsubj") = true
      · simp [svoStep, hr, hn, ho]
      · simp [svoStep, hr, hn, ho]

lemma foldl_svoStep_sujeito (doc : List Token) (init : SVOState) :
    (doc.foldl svoStep init).sujeito =
      Option.or ((doc.reverse.find? fun t => t.dep_ == "nsubj").map (·.text)) init.sujeito := by
  induction doc using List.reverseRecOn generalizing init with
  | nil => simp [Option.or]
  | append_singleton ds t ih =>
    rw [List.foldl_append]
    simp only [List.foldl_cons, List.foldl_nil]
    rw [List.reverse_append]
    simp only [List.reverse_singleton, List.singleton_append]
    by_cases hn : (t.dep_ == "nsubj") = true
    · rw [List.find?_cons_of_pos (p := fun t => t.dep_ == "nsubj") ds.reverse hn,
        svoStep_sujeito, if_pos hn]
      simp [Option.or]
    · rw [List.find?_cons_of_neg (p := fun t => t.dep_ == "nsubj") ds.reverse (by simp [hn]),
        svoStep_sujeito, if_neg (by simp [hn]), ih]

lemma foldl_svoStep_verbo (doc : List Token) (init : SVOState) :
    (doc.foldl svoStep init).verbo =
      Option.or ((doc.reverse.find? fun t => t.dep_ == "ROOT" && t.pos_ == "VERB").map (·.lemma_))
        init.verbo := by
  induction doc using List.reverseRecOn generalizing init with
  | nil => simp [Option.or]
  | append_singleton ds t ih =>
    rw [List.foldl_append]
    simp only [List.foldl_cons, List.foldl_nil]
    rw [List.reverse_append]
    simp only [List.reverse_singleton, List.singleton_append]
    by_cases hn : (t.dep_ == "ROOT" && t.pos_ == "VERB") = true
    · rw [List.find?_cons_of_pos (p := fun t => t.dep_ == "ROOT" && t.pos_ == "VERB")
        ds.reverse hn, svoStep_verbo, if_pos hn]
      simp [Option.or]
    · rw [List.find?_cons_of_neg (p := fun t => t.dep_ == "ROOT" && t.pos_ == "VERB")
        ds.reverse (by simp [hn]), svoStep_verbo, if_neg (by simp [hn]), ih]

lemma foldl_svoStep_objeto (doc : List Token) (init : SVOState) :
    (doc.foldl svoStep init).objeto =
      Option.or ((doc.reverse.find? fun t => isObjDep t.dep_).map (·.lemma_)) init.objeto := by
  induction doc using List.reverseRecOn generalizing init with
  | nil => simp [Option.or]
  | append_singleton ds t ih =>
    rw [List.foldl_append]
    simp only [List.foldl_cons, List.foldl_nil]
    rw [List.reverse_append]
    simp only [List.reverse_singleton, List.singleton_append]
    by_cases hn : isObjDep t.dep_ = true
    · rw [List.find?_cons_of_pos (p := fun t => isObjDep t.dep_) ds.reverse hn,
        svoStep_objeto, if_pos hn]
      simp [Option.or]
    · rw [List.find?_cons_of_neg (p := fun t => isObjDep t.dep_) ds.reverse (by simp [hn]),
        svoStep_objeto, if_neg (by simp [hn]), ih]

lemma option_or_none (o : Option String) : Option.or o none = o := by
  cases o <;> rfl

lemma optTruthy_getD {o : Option String} (h : optTruthy o = true) : o.getD "" ≠ "" := by
  cases o with
  | none => simp [optTruthy] at h
  | some s =>
    have hs : (s == "") = false := by simpa [optTruthy] using h
    simpa using hs

lemma optTruthy_find (l : List Token) (p : Token → Bool) (f : Token → String)
    (hf : ∀ t ∈ l, f t ≠ "") :
    optTruthy ((l.reverse.find? p).map f) = true ↔ ∃ t ∈ l, p t = true := by
  cases hfind : l.reverse.find? p with
  | none =>
    rw [List.find?_eq_none] at hfind
    constructor
    · intro h; simp [optTruthy] at h
    · rintro ⟨t, ht, hp⟩
      exact absurd hp (hfind t (List.mem_reverse.mpr ht))
  | some t =>
    have hp := List.find?_some hfind
    have hm : t ∈ l := List.mem_reverse.mp (List.mem_of_find?_eq_some hfind)
    have hft : (f t == "") = false := by simpa using hf t hm
    constructor
    · intro _; exact ⟨t, hm, hp⟩
    · intro _; simp [optTruthy, hft]

lemma extrair_svo_isSome (frase : String) (doc : List Token) :
    (extrair_svo frase doc).isSome =
      (optTruthy (doc.foldl svoStep ⟨none, none, none⟩).verbo &&
        (optTruthy (doc.foldl svoStep ⟨none, none, none⟩).sujeito ||
          optTruthy (doc.foldl svoStep ⟨none, none, none⟩).objeto)) := by
  simp only [extrair_svo]
  split <;> simp_all

/-- Claim C1 (counterexample): the scan of `extrair_svo` overwrites on every
match, so with two `nsubj` tokens and two object-labelled tokens the
extracted subject/object come from the LAST matching token, not the first:
here the first `nsubj` is "gato" and the first object "peixe", yet the
construction carries "cão" and "carne". -/
def exDocDupl : List Token :=
  [{ text := "gato", lemma_ := "gato", pos_ := "NOUN", dep_ := "nsubj", i := 0, headI := 2 },
   { text := "cão", lemma_ := "cão", pos_ := "NOUN", dep_ := "nsubj", i := 1, headI := 2 },
   { text := "come", lemma_ := "comer", pos_ := "VERB", dep_ := "ROOT", i := 2, headI := 2 },
   { text := "peixe", lemma_ := "peixe", pos_ := "NOUN", dep_ := "obj", i := 3, headI := 2 },
   { text := "carne", lemma_ := "carne", pos_ := "NOUN", dep_ := "obj", i := 4, headI := 2 }]

/-- Claim C1 is false as stated: on `exDocDupl` the first `nsubj` token has
surface form "gato" and the first object-labelled token has lemma "peixe",
but `extrair_svo` extracts subject "cão" and object "carne" (the last
matches), which differ. -/
theorem extrair_svo_first_match_cex :
    extrair_svo "frase" exDocDupl = some ⟨"frase", "cão", "comer", "carne"⟩ ∧
    (exDocDupl.find? fun t => t.dep_ == "nsubj").map (·.text) = some "gato" ∧
    (exDocDupl.find? fun t => isObjDep t.dep_).map (·.lemma_) = some "peixe" ∧
    ("cão" : String) ≠ "gato" ∧ ("carne" : String) ≠ "peixe" := by
  decide

/-- Claim C1 (amended): whenever `extrair_svo` returns a construction, the
subject is the surface form of the last token (in sequence order) whose
dependency label is `nsubj`, the verb is the lemma of the last token with
label `ROOT` and part-of-speech `VERB`, and the object is the lemma of the
last token whose label is in {obj, dobj, obl, attr}; a slot with no
matching token is the empty string.  Last matches are phrased as first
matches on the reversed token list. -/
theorem extrair_svo_takes_last (frase : String) (doc : List Token) (c : SVO)
    (h : extrair_svo frase doc = some c) :
    c.sujeito = ((doc.reverse.find? fun t => t.dep_ == "nsubj").map (·.text)).getD "" ∧
    c.verbo = ((doc.reverse.find? fun t => t.dep_ == "ROOT" && t.pos_ == "VERB").map
      (·.lemma_)).getD "" ∧
    c.objeto = ((doc.reverse.find? fun t => isObjDep t.dep_).map (·.lemma_)).getD "" := by
  have e1 : (doc.foldl svoStep ⟨none, none, none⟩).sujeito =
      (doc.reverse.find? fun t => t.dep_ == "nsubj").map (·.text) := by
    rw [foldl_svoStep_sujeito]; exact option_or_none _
  have e2 : (doc.foldl svoStep ⟨none, none, none⟩).verbo =
      (doc.reverse.find? fun t => t.dep_ == "ROOT" && t.pos_ == "VERB").map (·.lemma_) := by
    rw [foldl_svoStep_verbo]; exact option_or_none _
  have e3 : (doc.foldl svoStep ⟨none, none, none⟩).objeto =
      (doc.reverse.find? fun t => isObjDep t.dep_).map (·.lemma_) := by
    rw [foldl_svoStep_objeto]; exact option_or_none _
  simp only [extrair_svo] at h
  split at h
  case isTrue hcond =>
    cases h
    exact ⟨by rw [← e1], by rw [← e2], by rw [← e3]⟩
  case isFalse hcond =>
    exact Option.noConfusion h

/-- A well-formed singleton-style parse used to instantiate the SVO
theorems: subject "gato", root verb lemma "comer", object lemma "peixe". -/
def exDocSVO : List Token :=
  [{ text := "gato", lemma_ := "gato", pos_ := "NOUN", dep_ := "nsubj", i := 0, headI := 1 },
   { text := "come", lemma_ := "comer", pos_ := "VERB", dep_ := "ROOT", i := 1, headI := 1 },
   { text := "peixe", lemma_ := "peixe", pos_ := "NOUN", dep_ := "obj", i := 2, headI := 1 }]

/-- Witness for the amended claim C1 at the concrete parse `exDocSVO`. -/
theorem extrair_svo_takes_last_witness :
    extrair_svo "frase" exDocSVO = some ⟨"frase", "gato", "comer", "peixe"⟩ ∧
    ((⟨"frase", "gato", "comer", "peixe"⟩ : SVO).sujeito =
        ((exDocSVO.reverse.find? fun t => t.dep_ == "nsubj").map (·.text)).getD "" ∧
      (⟨"frase", "gato", "comer", "peixe"⟩ : SVO).verbo =
        ((exDocSVO.reverse.find? fun t => t.dep_ == "ROOT" && t.pos_ == "VERB").map
          (·.lemma_)).getD "" ∧
      (⟨"frase", "gato", "comer", "peixe"⟩ : SVO).objeto =
        ((exDocSVO.reverse.find? fun t => isObjDep t.dep_).map (·.lemma_)).getD "") :=
  ⟨by decide, extrair_svo_takes_last "frase" exDocSVO ⟨"frase", "gato", "comer", "peixe"⟩
    (by decide)⟩

/-- Claim C2: assuming the parser contract that every token carries a
non-empty surface form and a non-empty lemma, `extrair_svo` returns a
construction iff a `ROOT` verb token exists and an `nsubj` or
object-labelled token exists; and any returned construction has a
non-empty verb lemma and a non-empty subject or object. -/
theorem extrair_svo_some_iff (frase : String) (doc : List Token)
    (hne : ∀ t ∈ doc, t.text ≠ "" ∧ t.lemma_ ≠ "") :
    ((extrair_svo frase doc).isSome ↔
      ((∃ t ∈ doc, t.dep_ = "ROOT" ∧ t.pos_ = "VERB") ∧
        ((∃ t ∈ doc, t.dep_ = "nsubj") ∨ (∃ t ∈ doc, isObjDep t.dep_ = true)))) ∧
    (∀ c, extrair_svo frase doc = some c →
      c.verbo ≠ "" ∧ (c.sujeito ≠ "" ∨ c.objeto ≠ "")) := by
  have e1 : (doc.foldl svoStep ⟨none, none, none⟩).sujeito =
      (doc.reverse.find? fun t => t.dep_ == "nsubj").map (·.text) := by
    rw [foldl_svoStep_sujeito]; exact option_or_none _
  have e2 : (doc.foldl svoStep ⟨none, none, none⟩).verbo =
      (doc.reverse.find? fun t => t.dep_ == "ROOT" && t.pos_ == "VERB").map (·.lemma_) := by
    rw [foldl_svoStep_verbo]; exact option_or_none _
  have e3 : (doc.foldl svoStep ⟨none, none, none⟩).objeto =
      (doc.reverse.find? fun t => isObjDep t.dep_).map (·.lemma_) := by
    rw [foldl_svoStep_objeto]; exact option_or_none _
  have h1 : optTruthy (doc.foldl svoStep ⟨none, none, none⟩).verbo = true ↔
      ∃ t ∈ doc, (t.dep_ == "ROOT" && t.pos_ == "VERB") = true := by
    rw [e2]; exact optTruthy_find doc _ _ (fun t ht => (hne t ht).2)
  have h2 : optTruthy (doc.foldl svoStep ⟨none, none, none⟩).sujeito = true ↔
      ∃ t ∈ doc, (t.dep_ == "nsubj") = true := by
    rw [e1]; exact optTruthy_find doc _ _ (fun t ht => (hne t ht).1)
  have h3 : optTruthy (doc.foldl svoStep ⟨none, none, none⟩).objeto = true ↔
      ∃ t ∈ doc, isObjDep t.dep_ = true := by
    rw [e3]; exact optTruthy_find doc _ _ (fun t ht => (hne t ht).2)
  constructor
  · rw [extrair_svo_isSome, Bool.and_eq_true, Bool.or_eq_true, h1, h2, h3]
    simp [Bool.and_eq_true, beq_iff_eq]
  · intro c hc
    simp only [extrair_svo] at hc
    split at hc
    case isTrue hcond =>
      cases hc
      obtain ⟨hvb, hso⟩ := (Bool.and_eq_true _ _).mp hcond
      refine ⟨optTruthy_getD hvb, ?_⟩
      rcases (Bool.or_eq_true _ _).mp hso with h | h
      · exact Or.inl (optTruthy_getD h)
      · exact Or.inr (optTruthy_getD h)
    case isFalse hcond =>
      exact Option.noConfusion hc

/-- Witness for claim C2 at the concrete parse `exDocSVO`. -/
theorem extrair_svo_some_iff_witness :
    (∀ t ∈ exDocSVO, t.text ≠ "" ∧ t.lemma_ ≠ "") ∧
    (((extrair_svo "frase" exDocSVO).isSome ↔
      ((∃ t ∈ exDocSVO, t.dep_ = "ROOT" ∧ t.pos_ = "VERB") ∧
        ((∃ t ∈ exDocSVO, t.dep_ = "nsubj") ∨ (∃ t ∈ exDocSVO, isObjDep t.dep_ = true)))) ∧
    (∀ c, extrair_svo "frase" exDocSVO = some c →
      c.verbo ≠ "" ∧ (c.sujeito ≠ "" ∨ c.objeto ≠ ""))) :=
  ⟨by decide, extrair_svo_some_iff "frase" exDocSVO (by decide)⟩

/-- The record returned by `extrair_adj_n` (keys of the Python dict). -/
structure AdjN where
  frase_limpa : String
  adjetivo : String
  nome : String
deriving DecidableEq, Repr

/-- The record returned by `extrair_n_adj` (keys of the Python dict). -/
structure NAdj where
  frase_limpa : String
  nome : String
  adjetivo : String
deriving DecidableEq, Repr

/-- `token.head` of the source: the token of the parse at position
`t.headI` (spaCy guarantees a head index in range). -/
def headTok (doc : List Token) (t : Token) : Token := doc.getD t.headI default

/-- The Tier-1 test of `extrair_adj_n`: `token.pos_ == "ADJ" and
token.head.pos_ == "NOUN" and token.i < token.head.i`. -/
def adjNCond (doc : List Token) (t : Token) : Bool :=
  t.pos_ == "ADJ" && (headTok doc t).pos_ == "NOUN" && decide (t.i < (headTok doc t).i)

/-- `extrair_n_adj(frase)` of the source: the first token whose pos is
`ADJ` and whose head's pos is `NOUN`; pairs the head's lemma (`nome`)
with the token's lemma (`adjetivo`). -/
def extrair_n_adj (frase : String) (doc : List Token) : Option NAdj :=
  match doc.find? (fun t => t.pos_ == "ADJ" && (headTok doc t).pos_ == "NOUN") with
  | some t => some ⟨frase, (headTok doc t).lemma_, t.lemma_⟩
  | none => none

/-- `extrair_adj_n(frase)` of the source.  Tier 1: first token with pos
`ADJ`, a `NOUN` head and `token.i < token.head.i`.  Tier 2, reached only
when the first loop finds nothing: first adjacent pair `ADJ` immediately
followed by `NOUN`, scanned as `doc.zip doc.tail` to mirror
`range(len(doc) - 1)`. -/
def extrair_adj_n (frase : String) (doc : List Token) : Option AdjN :=
  match doc.find? (adjNCond doc) with
  | some t => some ⟨frase, t.lemma_, (headTok doc t).lemma_⟩
  | none =>
    match (doc.zip doc.tail).find? (fun p => p.1.pos_ == "ADJ" && p.2.pos_ == "NOUN") with
    | some p => some ⟨frase, p.1.lemma_, p.2.lemma_⟩
    | none => none

lemma find?_first {α : Type} (p : α → Bool) (l : List α) (a : α) (h : l.find? p = some a) :
    ∃ n, ∃ hn : n < l.length, l.get ⟨n, hn⟩ = a ∧ p a = true ∧
      ∀ m (hm : m < n), p (l.get ⟨m, Nat.lt_trans hm hn⟩) = false := by
  induction l with
  | nil => simp [List.find?] at h
  | cons b t ih =>
    by_cases hb : p b = true
    · rw [List.find?_cons_of_pos _ hb] at h
      cases h
      exact ⟨0, by simp, rfl, hb, fun m hm => absurd hm (Nat.not_lt_zero m)⟩
    · rw [List.find?_cons_of_neg _ (by simp [hb])] at h
      obtain ⟨n, hn, hget, hpa, hfirst⟩ := ih h
      refine ⟨n + 1, by simpa using Nat.succ_lt_succ hn, by simpa using hget, hpa, ?_⟩
      intro m hm
      cases m with
      | zero => simpa using hb
      | succ m' =>
        have := hfirst m' (Nat.lt_of_succ_lt_succ hm)
        simpa using this

lemma zip_tail_get (doc : List Token) (m : Nat) (hm : m < (doc.zip doc.tail).length)
    (h1 : m < doc.length) (h2 : m + 1 < doc.length) :
    (doc.zip doc.tail).get ⟨m, hm⟩ = (doc.get ⟨m, h1⟩, doc.get ⟨m + 1, h2⟩) := by
  simp [List.get_eq_getElem, List.getElem_zip, List.getElem_tail]

/-- Claim C3: Tier 1 of `extrair_adj_n` returns the pair of the first token
satisfying the Tier-1 test, and that token's position strictly precedes its
noun head's position; when no token satisfies the Tier-1 test, any result
comes from the first strictly adjacent `ADJ`-`NOUN` pair (under the parser
contract that `token.i` is the token's index in the sequence). -/
theorem extrair_adj_n_spec (frase : String) (doc : List Token)
    (hwf : ∀ k (hk : k < doc.length), (doc.get ⟨k, hk⟩).i = k) :
    (∀ t, doc.find? (adjNCond doc) = some t →
      extrair_adj_n frase doc = some ⟨frase, t.lemma_, (headTok doc t).lemma_⟩ ∧
      t.i < (headTok doc t).i ∧
      (∃ n, ∃ hn : n < doc.length, doc.get ⟨n, hn⟩ = t ∧
        ∀ m (hm : m < n), adjNCond doc (doc.get ⟨m, Nat.lt_trans hm hn⟩) = false)) ∧
    ((∀ t ∈ doc, adjNCond doc t = false) →
      ∀ c, extrair_adj_n frase doc = some c →
        ∃ j, ∃ hj : j + 1 < doc.length,
          (doc.get ⟨j, Nat.lt_of_succ_lt hj⟩).pos_ = "ADJ" ∧
          (doc.get ⟨j + 1, hj⟩).pos_ = "NOUN" ∧
          c = ⟨frase, (doc.get ⟨j, Nat.lt_of_succ_lt hj⟩).lemma_,
            (doc.get ⟨j + 1, hj⟩).lemma_⟩ ∧
          (doc.get ⟨j, Nat.lt_of_succ_lt hj⟩).i + 1 = (doc.get ⟨j + 1, hj⟩).i ∧
          ∀ m (hm : m < j), ((doc.get ⟨m, by omega⟩).pos_ == "ADJ" &&
            (doc.get ⟨m + 1, by omega⟩).pos_ == "NOUN") = false) := by
  constructor
  · intro t ht
    have hp := List.find?_some ht
    have hlt : t.i < (headTok doc t).i := by
      have := (Bool.and_eq_true _ _).mp hp
      exact of_decide_eq_true this.2
    refine ⟨by simp [extrair_adj_n, ht], hlt, ?_⟩
    obtain ⟨n, hn, hget, _, hfirst⟩ := find?_first _ _ _ ht
    exact ⟨n, hn, hget, hfirst⟩
  · intro hnone c hc
    have hfn : doc.find? (adjNCond doc) = none :=
      List.find?_eq_none.mpr (fun x hx => by simp [hnone x hx])
    simp only [extrair_adj_n, hfn] at hc
    cases hz : (doc.zip doc.tail).find?
        (fun p => p.1.pos_ == "ADJ" && p.2.pos_ == "NOUN") with
    | none => rw [hz] at hc; exact Option.noConfusion hc
    | some pr =>
      rw [hz] at hc
      obtain ⟨n, hn, hget, hq, hfirst⟩ := find?_first _ _ _ hz
      have hlen : n < doc.length - 1 := by
        have h' := hn
        rw [List.length_zip, List.length_tail] at h'
        omega
      have hj : n + 1 < doc.length := by omega
      have hpr : pr = (doc.get ⟨n, by omega⟩, doc.get ⟨n + 1, hj⟩) := by
        rw [← hget, zip_tail_get]
      subst hpr
      simp only [Bool.and_eq_true, beq_iff_eq] at hq
      cases hc
      refine ⟨n, hj, hq.1, hq.2, rfl, ?_, ?_⟩
      · rw [hwf n (by omega), hwf (n + 1) hj]
      · intro m hm
        have hmz : m < (doc.zip doc.tail).length := by
          rw [List.length_zip, List.length_tail]; omega
        have hres := hfirst m (by omega)
        rw [zip_tail_get doc m _ (by omega) (by omega)] at hres
        exact hres

/-- A parse where the dependency relation attaches the adjective to itself
(no noun head), so Tier 1 fails and only positional adjacency applies. -/
def exDocAdjN : List Token :=
  [{ text := "bom", lemma_ := "bom", pos_ := "ADJ", dep_ := "amod", i := 0, headI := 0 },
   { text := "dia", lemma_ := "dia", pos_ := "NOUN", dep_ := "ROOT", i := 1, headI := 1 }]

/-- Witness for claim C3 at the concrete parse `exDocAdjN`. -/
theorem extrair_adj_n_spec_witness :
    (∀ k (hk : k < exDocAdjN.length), (exDocAdjN.get ⟨k, hk⟩).i = k) ∧
    ((∀ t, exDocAdjN.find? (adjNCond exDocAdjN) = some t →
      extrair_adj_n "frase" exDocAdjN = some ⟨"frase", t.lemma_, (headTok exDocAdjN t).lemma_⟩ ∧
      t.i < (headTok exDocAdjN t).i ∧
      (∃ n, ∃ hn : n < exDocAdjN.length, exDocAdjN.get ⟨n, hn⟩ = t ∧
        ∀ m (hm : m < n), adjNCond exDocAdjN (exDocAdjN.get ⟨m, Nat.lt_trans hm hn⟩) = false)) ∧
    ((∀ t ∈ exDocAdjN, adjNCond exDocAdjN t = false) →
      ∀ c, extrair_adj_n "frase" exDocAdjN = some c →
        ∃ j, ∃ hj : j + 1 < exDocAdjN.length,
          (exDocAdjN.get ⟨j, Nat.lt_of_succ_lt hj⟩).pos_ = "ADJ" ∧
          (exDocAdjN.get ⟨j + 1, hj⟩).pos_ = "NOUN" ∧
          c = ⟨"frase", (exDocAdjN.get ⟨j, Nat.lt_of_succ_lt hj⟩).lemma_,
            (exDocAdjN.get ⟨j + 1, hj⟩).lemma_⟩ ∧
          (exDocAdjN.get ⟨j, Nat.lt_of_succ_lt hj⟩).i + 1 = (exDocAdjN.get ⟨j + 1, hj⟩).i ∧
          ∀ m (hm : m < j), ((exDocAdjN.get ⟨m, by omega⟩).pos_ == "ADJ" &&
            (exDocAdjN.get ⟨m + 1, by omega⟩).pos_ == "NOUN") = false)) :=
  ⟨by decide, extrair_adj_n_spec "frase" exDocAdjN (by decide)⟩

/-- A WordNet synset as consumed by the source: only its `lexname()`
(the fine-grained sense classification tag) is ever read. -/
structure Synset where
  lexname : String
deriving DecidableEq, Repr

/-- The dict `mapeamento_dominios`: WordNet subdomains → coarse domains,
as an association list in source order. -/
def mapeamento_dominios : List (String × String) :=
  [("noun.person", "pessoa"), ("noun.artifact", "objeto"), ("noun.act", "evento"),
   ("noun.event", "evento"), ("noun.group", "organização"), ("noun.location", "lugar"),
   ("noun.communication", "comunicação"), ("noun.state", "estado"),
   ("noun.cognition", "conhecimento"), ("noun.quantity", "quantidade"),
   ("noun.attribute", "característica"), ("noun.time", "tempo"),
   ("noun.animal", "animal"), ("noun.body", "corpo"), ("noun.food", "comida"),
   ("noun.substance", "matéria"), ("noun.object", "objeto"),
   ("noun.feeling", "emoção"), ("noun.phenomenon", "fenómeno")]

/-- `obter_dominios(word, lang)` of the source, with the external
`wn.synsets(word, lang=lang)` passed in as `lookup`; an exception raised
by the lookup is modelled as `Except.error`, which the `try/except` turns
into the empty candidate list.  Returns `(dominio, subdominio)`. -/
def obter_dominios (lookup : String → Except Unit (List Synset)) (word : String) :
    String × String :=
  if word == "" || isBlank word then ("desconhecido", "desconhecido")
  else
    let synsets := match lookup word with
      | .error _ => []
      | .ok l => l
    match synsets with
    | [] => ("desconhecido", "desconhecido")
    | primeiro :: _ =>
      ((mapeamento_dominios.lookup primeiro.lexname).getD "outro", primeiro.lexname)

lemma lookup_mem {l : List (String × String)} {k v : String} (h : l.lookup k = some v) :
    (k, v) ∈ l := by
  obtain ⟨l₁, l₂, rfl, -⟩ := List.lookup_eq_some_iff.mp h
  simp

lemma mapeamento_values (k : String) :
    (mapeamento_dominios.lookup k).getD "outro" ≠ "desconhecido" := by
  cases h : mapeamento_dominios.lookup k with
  | none => decide
  | some v =>
    have hm : v ∈ mapeamento_dominios.map Prod.snd :=
      List.mem_map_of_mem _ (lookup_mem h)
    have hall : ∀ x ∈ mapeamento_dominios.map Prod.snd, x ≠ "desconhecido" := by decide
    simpa using hall v hm

/-- Claim C4: `obter_dominios` returns the ("desconhecido", "desconhecido")
sentinel exactly when the word is empty or blank, when the sense lookup
raises, or when it returns no candidates; the function is total, so no
exception escapes in any of these cases. -/
theorem obter_dominios_unknown_iff (lookup : String → Except Unit (List Synset))
    (word : String) :
    obter_dominios lookup word = ("desconhecido", "desconhecido") ↔
      (word = "" ∨ isBlank word = true ∨ lookup word = .error () ∨
        lookup word = .ok []) := by
  by_cases hb : (word == "" || isBlank word) = true
  · have hd : word = "" ∨ isBlank word = true := by
      simpa [Bool.or_eq_true, beq_iff_eq] using hb
    have heq : obter_dominios lookup word = ("desconhecido", "desconhecido") := by
      simp [obter_dominios, hb]
    rw [heq]
    exact iff_of_true rfl (by tauto)
  · have hbf : (word == "" || isBlank word) = false := by simpa using hb
    have hwne : ¬(word = "" ∨ isBlank word = true) := by
      intro h
      apply hb
      rcases h with h | h <;> simp [h]
    cases hl : lookup word with
    | error e =>
      cases e
      have heq : obter_dominios lookup word = ("desconhecido", "desconhecido") := by
        simp [obter_dominios, hbf, hl]
      rw [heq]
      exact iff_of_true rfl (by tauto)
    | ok l =>
      cases l with
      | nil =>
        have heq : obter_dominios lookup word = ("desconhecido", "desconhecido") := by
          simp [obter_dominios, hbf, hl]
        rw [heq]
        exact iff_of_true rfl (by tauto)
      | cons s rest =>
        have heq : obter_dominios lookup word =
            ((mapeamento_dominios.lookup s.lexname).getD "outro", s.lexname) := by
          simp [obter_dominios, hbf, hl]
        rw [heq]
        constructor
        · intro h
          rw [Prod.mk.injEq] at h
          exact absurd h.1 (mapeamento_values s.lexname)
        · intro h
          rcases h with h | h | h | h
          · exact absurd (Or.inl h) hwne
          · exact absurd (Or.inr h) hwne
          · exact Except.noConfusion h
          · injection h with h'
            exact List.noConfusion h'

/-- Claim C5: for a non-blank word whose lookup yields at least one sense,
the classifier uses only the first sense: the returned fine tag is that
sense's tag, the coarse domain is the table image of the tag when the tag
is a key of `mapeamento_dominios` and "outro" (never "desconhecido")
otherwise, and the result is unchanged under any other lookup that returns
the same first sense. -/
theorem obter_dominios_first_sense (lookup lookup2 : String → Except Unit (List Synset))
    (word : String) (s : Synset) (rest rest2 : List Synset)
    (hb : (word == "" || isBlank word) = false)
    (hl : lookup word = .ok (s :: rest)) (hl2 : lookup2 word = .ok (s :: rest2)) :
    (obter_dominios lookup word).2 = s.lexname ∧
    (∀ d, mapeamento_dominios.lookup s.lexname = some d →
      (obter_dominios lookup word).1 = d) ∧
    (mapeamento_dominios.lookup s.lexname = none →
      (obter_dominios lookup word).1 = "outro") ∧
    (obter_dominios lookup word).1 ≠ "desconhecido" ∧
    obter_dominios lookup word = obter_dominios lookup2 word := by
  have heq : obter_dominios lookup word =
      ((mapeamento_dominios.lookup s.lexname).getD "outro", s.lexname) := by
    simp [obter_dominios, hb, hl]
  have heq2 : obter_dominios lookup2 word =
      ((mapeamento_dominios.lookup s.lexname).getD "outro", s.lexname) := by
    simp [obter_dominios, hb, hl2]
  rw [heq, heq2]
  refine ⟨rfl, ?_, ?_, mapeamento_values s.lexname, rfl⟩
  · intro d hd; rw [hd]; rfl
  · intro hd; rw [hd]; rfl

/-- A concrete sense lookup: "gato" has two senses, first tag
`noun.animal`; everything else has none. -/
def exLookup : String → Except Unit (List Synset) :=
  fun w => if w == "gato" then .ok [⟨"noun.animal"⟩, ⟨"noun.person"⟩] else .ok []

/-- A second concrete lookup agreeing with `exLookup` only on the first
sense of "gato". -/
def exLookup2 : String → Except Unit (List Synset) :=
  fun w => if w == "gato" then .ok [⟨"noun.animal"⟩] else .ok []

/-- Witness for claim C5 at the word "gato" under `exLookup`/`exLookup2`. -/
theorem obter_dominios_first_sense_witness :
    (("gato" == "" || isBlank "gato") = false) ∧
    exLookup "gato" = .ok [⟨"noun.animal"⟩, ⟨"noun.person"⟩] ∧
    exLookup2 "gato" = .ok [⟨"noun.animal"⟩] ∧
    ((obter_dominios exLookup "gato").2 = Synset.lexname ⟨"noun.animal"⟩ ∧
    (∀ d, mapeamento_dominios.lookup (Synset.lexname ⟨"noun.animal"⟩) = some d →
      (obter_dominios exLookup "gato").1 = d) ∧
    (mapeamento_dominios.lookup (Synset.lexname ⟨"noun.animal"⟩) = none →
      (obter_dominios exLookup "gato").1 = "outro") ∧
    (obter_dominios exLookup "gato").1 ≠ "desconhecido" ∧
    obter_dominios exLookup "gato" = obter_dominios exLookup2 "gato") :=
  ⟨by decide, rfl, rfl,
    obter_dominios_first_sense exLookup exLookup2 "gato" ⟨"noun.animal"⟩
      [⟨"noun.person"⟩] [] (by decide) rfl rfl⟩

theorem listCharLe_total : ∀ (a b : List Char), listCharLe a b = true ∨ listCharLe b a = true
  | [], _ => Or.inl rfl
  | _ :: _, [] => Or.inr rfl
  | a :: as, b :: bs => by
    rcases lt_trichotomy a b with h | h | h
    · left; simp [listCharLe, h]
    · subst h
      have := listCharLe_total as bs
      simpa [listCharLe] using this
    · right; simp [listCharLe, h]

theorem listCharLe_trans : ∀ {a b c : List Char}, listCharLe a b = true →
    listCharLe b c = true → listCharLe a c = true
  | [], _, _, _, _ => rfl
  | _ :: _, [], _, h1, _ => by simp [listCharLe] at h1
  | _ :: _, _ :: _, [], _, h2 => by simp [listCharLe] at h2
  | a :: as, b :: bs, c :: cs, h1, h2 => by
    by_cases hab : a < b
    · by_cases hbc : b < c
      · have hac : a < c := lt_trans hab hbc
        simp [listCharLe, hac]
      · by_cases hcb : c < b
        · simp [listCharLe, hbc, hcb] at h2
        · have hbc' : b = c := le_antisymm (not_lt.mp hcb) (not_lt.mp hbc)
          subst hbc'
          simp [listCharLe, hab]
    · by_cases hba : b < a
      · simp [listCharLe, hab, hba] at h1
      · have hab' : a = b := le_antisymm (not_lt.mp hba) (not_lt.mp hab)
        subst hab'
        simp only [listCharLe, lt_irrefl, if_false] at h1
        by_cases hac : a < c
        · simp [listCharLe, hac]
        · by_cases hca : c < a
          · simp [listCharLe, hac, hca] at h2
          · have hac' : a = c := le_antisymm (not_lt.mp hca) (not_lt.mp hac)
            subst hac'
            simp only [listCharLe, lt_irrefl, if_false] at h2 ⊢
            exact listCharLe_trans h1 h2

instance : IsTotal String (fun a b => strLe a b = true) :=
  ⟨fun a b => listCharLe_total a.data b.data⟩

instance : IsTrans String (fun a b => strLe a b = true) :=
  ⟨fun _ _ _ h1 h2 => listCharLe_trans h1 h2⟩

/-- One row of a variability table: the grouping key (`verbo`, `nome`,
`adjetivo` or `construcao` depending on the pipeline variant), the
distinct-domain count and the sorted distinct-domain labels (the source
stores them joined with ", "). -/
structure VarRecord where
  anchorV : String
  variabilidade : Nat
  dominios : List String
deriving DecidableEq, Repr

/-- Python's `sorted(...)` on strings. -/
def sortStrings (l : List String) : List String :=
  List.insertionSort (fun a b => strLe a b = true) l

/-- Models `df.groupby(anchor)[dom].apply(list)` followed by
`len(set(x))` and `sorted(set(x))` per group, then `reset_index`: pandas
sorts the group keys; within a group values keep dataframe order; the
value set `set(x)` is modelled by `dedup`. -/
def aggregate {α : Type} (rows : List α) (anchor dom : α → String) : List VarRecord :=
  (sortStrings ((rows.map anchor).dedup)).map (fun k =>
    let xs := (rows.filter (fun r => anchor r == k)).map dom
    { anchorV := k, variabilidade := xs.dedup.length, dominios := sortStrings xs.dedup })

/-- The fixed light-verb set `verbos_leves` of the source. -/
def verbos_leves : List String :=
  ["fazer", "ter", "dar", "estar", "haver", "ficar", "pôr", "levar", "deixar", "manter"]

/-- One row of the svo dataframe after domain annotation (lines 236-240). -/
structure SVORow where
  frase_limpa : String
  frase_original : String
  sujeito : String
  verbo : String
  objeto : String
  dominio : String
  subdominio : String
  dominio_sujeito : String
  subdominio_sujeito : String
  construcao : String
deriving DecidableEq, Repr

/-- The svo-branch domain annotation of one extracted entry: `dominio`
from the object, `dominio_sujeito` from the subject, plus the
`construcao` label. -/
def svoAnnot (lookup : String → Except Unit (List Synset)) (fraseOrig : String)
    (c : SVO) : SVORow :=
  { frase_limpa := c.frase_limpa, frase_original := fraseOrig,
    sujeito := c.sujeito, verbo := c.verbo, objeto := c.objeto,
    dominio := (obter_dominios lookup c.objeto).1,
    subdominio := (obter_dominios lookup c.objeto).2,
    dominio_sujeito := (obter_dominios lookup c.sujeito).1,
    subdominio_sujeito := (obter_dominios lookup c.sujeito).2,
    construcao := c.verbo ++ " X" }

/-- The light-verb filter `df[~df["verbo"].isin(verbos_leves)]`. -/
def filtraVerbosLeves (rows : List SVORow) : List SVORow :=
  rows.filter (fun r => !(verbos_leves.contains r.verbo))

/-- `df_var_verbo_obj`: group the filtered svo rows by verb over the
object domain. -/
def df_var_verbo_obj (rows : List SVORow) : List VarRecord :=
  aggregate (filtraVerbosLeves rows) (·.verbo) (·.dominio)

/-- `df_var_verbo_suj`: group the filtered svo rows by verb over the
subject domain. -/
def df_var_verbo_suj (rows : List SVORow) : List VarRecord :=
  aggregate (filtraVerbosLeves rows) (·.verbo) (·.dominio_sujeito)

instance : IsTotal VarRecord (fun a b => b.variabilidade ≤ a.variabilidade) :=
  ⟨fun a b => Or.symm (Nat.le_total a.variabilidade b.variabilidade)⟩

instance : IsTrans VarRecord (fun a b => b.variabilidade ≤ a.variabilidade) :=
  ⟨fun _ _ _ h1 h2 => le_trans h2 h1⟩

/-- `sort_values(by=<variability column>, ascending=False)`. -/
def sortByVar (recs : List VarRecord) : List VarRecord :=
  List.insertionSort (fun a b => b.variabilidade ≤ a.variabilidade) recs

/-- `df_var_obj_sorted` of the source. -/
def df_var_obj_sorted (rows : List SVORow) : List VarRecord :=
  sortByVar (df_var_verbo_obj rows)

/-- `df_var_suj_sorted` of the source. -/
def df_var_suj_sorted (rows : List SVORow) : List VarRecord :=
  sortByVar (df_var_verbo_suj rows)

/-- One row of the n_adj dataframe after both annotation passes. -/
structure NAdjRow where
  frase_limpa : String
  frase_original : String
  nome : String
  adjetivo : String
  dominio : String
  subdominio : String
  construcao : String
  dominio_adjetivo : String
  subdominio_adjetivo : String
deriving DecidableEq, Repr

/-- The n_adj branch per-entry processing in source order: (1) attach
`dominio`/`subdominio` from the `nome` as extracted (line 242) and build
`construcao` (line 243), (2) lowercase the `nome` and `adjetivo` columns
(lines 252-253), (3) attach `dominio_adjetivo`/`subdominio_adjetivo` from
the now-lowercased `adjetivo` column (line 285). -/
def processNAdj (lookup : String → Except Unit (List Synset)) (fraseOrig : String)
    (e : NAdj) : NAdjRow :=
  let dom := obter_dominios lookup e.nome
  let adjL := lowerStr e.adjetivo
  let domAdj := obter_dominios lookup adjL
  { frase_limpa := e.frase_limpa, frase_original := fraseOrig,
    nome := lowerStr e.nome, adjetivo := adjL,
    dominio := dom.1, subdominio := dom.2,
    construcao := e.nome ++ " + " ++ e.adjetivo,
    dominio_adjetivo := domAdj.1, subdominio_adjetivo := domAdj.2 }

/-- `df_var_nome`: group n_adj rows by noun over the adjective domain. -/
def df_var_nome (rows : List NAdjRow) : List VarRecord :=
  aggregate rows (·.nome) (·.dominio_adjetivo)

/-- `df_var_adj`: group n_adj rows by adjective over the noun domain. -/
def df_var_adj (rows : List NAdjRow) : List VarRecord :=
  aggregate rows (·.adjetivo) (·.dominio)

/-- `df_var_nome_sorted` of the source. -/
def df_var_nome_sorted (rows : List NAdjRow) : List VarRecord :=
  sortByVar (df_var_nome rows)

/-- `df_var_adj_sorted` of the source. -/
def df_var_adj_sorted (rows : List NAdjRow) : List VarRecord :=
  sortByVar (df_var_adj rows)

/-- One row of the adj_n dataframe after annotation (lines 244-246)
and lowercasing (lines 252-253). -/
structure AdjNRow where
  frase_limpa : String
  frase_original : String
  adjetivo : String
  nome : String
  dominio : String
  subdominio : String
  construcao : String
deriving DecidableEq, Repr

/-- The adj_n branch per-entry processing: `dominio` from the noun as
extracted, `construcao` from the original lemmas, then lowercasing. -/
def processAdjN (lookup : String → Except Unit (List Synset)) (fraseOrig : String)
    (e : AdjN) : AdjNRow :=
  let dom := obter_dominios lookup e.nome
  { frase_limpa := e.frase_limpa, frase_original := fraseOrig,
    adjetivo := lowerStr e.adjetivo, nome := lowerStr e.nome,
    dominio := dom.1, subdominio := dom.2,
    construcao := e.adjetivo ++ " " ++ e.nome }

/-- `df_var` of the adj_n branch: group by adjective over the noun
domain (the `construcao` rename only relabels the key column). -/
def df_var_adjn (rows : List AdjNRow) : List VarRecord :=
  aggregate rows (·.adjetivo) (·.dominio)

/-- `df_var_sorted` of the adj_n branch. -/
def df_var_adjn_sorted (rows : List AdjNRow) : List VarRecord :=
  sortByVar (df_var_adjn rows)

lemma aggregate_map_anchor {α : Type} (rows : List α) (anchor dom : α → String) :
    (aggregate rows anchor dom).map (·.anchorV) = sortStrings ((rows.map anchor).dedup) := by
  simp only [aggregate, List.map_map]
  exact List.map_id' _

lemma mem_aggregate_anchor {α : Type} {rows : List α} {anchor dom : α → String}
    {rec : VarRecord} (h : rec ∈ aggregate rows anchor dom) :
    rec.anchorV ∈ rows.map anchor := by
  have h1 : rec.anchorV ∈ (aggregate rows anchor dom).map (·.anchorV) :=
    List.mem_map_of_mem _ h
  rw [aggregate_map_anchor] at h1
  have h2 : rec.anchorV ∈ (rows.map anchor).dedup :=
    ((List.perm_insertionSort _ _).mem_iff).mp h1
  exact List.mem_dedup.mp h2

lemma anchor_mem_aggregate {α : Type} {rows : List α} (anchor dom : α → String)
    {v : String} (h : v ∈ rows.map anchor) :
    v ∈ (aggregate rows anchor dom).map (·.anchorV) := by
  rw [aggregate_map_anchor]
  exact ((List.perm_insertionSort _ _).mem_iff).mpr (List.mem_dedup.mpr h)

lemma aggregate_anchors_nodup {α : Type} (rows : List α) (anchor dom : α → String) :
    ((aggregate rows anchor dom).map (·.anchorV)).Nodup := by
  rw [aggregate_map_anchor]
  exact ((List.perm_insertionSort _ _).nodup_iff).mpr (List.nodup_dedup _)

lemma mem_aggregate_shape {α : Type} {rows : List α} {anchor dom : α → String}
    {rec : VarRecord} (h : rec ∈ aggregate rows anchor dom) :
    rec.variabilidade = rec.dominios.length ∧
    rec.dominios.Sorted (fun a b => strLe a b = true) ∧
    rec.dominios.Nodup ∧
    (∀ d, d ∈ rec.dominios ↔
      d ∈ (rows.filter (fun r => anchor r == rec.anchorV)).map dom) := by
  simp only [aggregate, List.mem_map] at h
  obtain ⟨k, hk, hrec⟩ := h
  subst hrec
  refine ⟨((List.perm_insertionSort _ _).length_eq).symm,
    List.sorted_insertionSort _ _,
    ((List.perm_insertionSort _ _).nodup_iff).mpr (List.nodup_dedup _), ?_⟩
  intro d
  show d ∈ sortStrings ((rows.filter (fun r => anchor r == k)).map dom).dedup ↔
    d ∈ (rows.filter (fun r => anchor r == k)).map dom
  rw [sortStrings, (List.perm_insertionSort _ _).mem_iff, List.mem_dedup]

/-- Claim C6: a construction whose verb lemma lies in `verbos_leves`
contributes no row to either SVO variability table: the filter runs before
the grouping, so no record of either sorted table carries a light-verb
anchor, whatever the rows' domain fields are. -/
theorem light_verbs_absent (rows : List SVORow) (v : String) (hv : v ∈ verbos_leves) :
    (∀ rec ∈ df_var_obj_sorted rows, rec.anchorV ≠ v) ∧
    (∀ rec ∈ df_var_suj_sorted rows, rec.anchorV ≠ v) := by
  have key : ∀ (dom : SVORow → String) (rec : VarRecord),
      rec ∈ sortByVar (aggregate (filtraVerbosLeves rows) (·.verbo) dom) →
      rec.anchorV ≠ v := by
    intro dom rec hrec hne
    have h1 : rec ∈ aggregate (filtraVerbosLeves rows) (·.verbo) dom :=
      ((List.perm_insertionSort _ _).mem_iff).mp hrec
    have h2 := mem_aggregate_anchor h1
    obtain ⟨r, hr, hrv⟩ := List.mem_map.mp h2
    simp only [filtraVerbosLeves] at hr
    have hfil := (List.mem_filter.mp hr).2
    rw [hne] at hrv
    rw [hrv] at hfil
    simp at hfil
    exact hfil hv
  exact ⟨fun rec h => key _ rec h, fun rec h => key _ rec h⟩

/-- Rows with a light verb "fazer" and a content verb "comer". -/
def exRowsSVO : List SVORow :=
  [{ frase_limpa := "a", frase_original := "a", sujeito := "gato", verbo := "fazer",
     objeto := "coisa", dominio := "objeto", subdominio := "noun.artifact",
     dominio_sujeito := "animal", subdominio_sujeito := "noun.animal",
     construcao := "fazer X" },
   { frase_limpa := "b", frase_original := "b", sujeito := "gato", verbo := "comer",
     objeto := "peixe", dominio := "animal", subdominio := "noun.animal",
     dominio_sujeito := "animal", subdominio_sujeito := "noun.animal",
     construcao := "comer X" }]

/-- Witness for claim C6: "fazer" is a light verb and appears in neither
variability table built from `exRowsSVO`. -/
theorem light_verbs_absent_witness :
    "fazer" ∈ verbos_leves ∧
    ((∀ rec ∈ df_var_obj_sorted exRowsSVO, rec.anchorV ≠ "fazer") ∧
      (∀ rec ∈ df_var_suj_sorted exRowsSVO, rec.anchorV ≠ "fazer")) :=
  ⟨by decide, light_verbs_absent exRowsSVO "fazer" (by decide)⟩

/-- Claim C7: each aggregated table has exactly one record per distinct
anchor value of its input rows (anchors are exactly those observed, with
no duplicate records), each record's variability count is the cardinality
of its distinct-domain set, and the reported domain set is sorted with no
duplicates and contains exactly the domains observed for that anchor. -/
theorem aggregate_spec {α : Type} (rows : List α) (anchor dom : α → String) :
    ((aggregate rows anchor dom).map (·.anchorV)).Nodup ∧
    (∀ v, v ∈ (aggregate rows anchor dom).map (·.anchorV) ↔ v ∈ rows.map anchor) ∧
    (∀ rec ∈ aggregate rows anchor dom,
      rec.variabilidade = rec.dominios.length ∧
      rec.dominios.Sorted (fun a b => strLe a b = true) ∧
      rec.dominios.Nodup ∧
      (∀ d, d ∈ rec.dominios ↔
        d ∈ (rows.filter (fun r => anchor r == rec.anchorV)).map dom)) := by
  refine ⟨aggregate_anchors_nodup rows anchor dom, ?_, fun _ h => mem_aggregate_shape h⟩
  intro v
  constructor
  · intro h
    obtain ⟨rec, hrec, hv⟩ := List.mem_map.mp h
    exact hv ▸ mem_aggregate_anchor hrec
  · exact fun h => anchor_mem_aggregate anchor dom h

/-- Claim C8: all five variability tables (the two SVO tables, the two
n_adj tables and the adj_n table) are sorted non-increasingly by the
variability count, and each table function is a pure function of its
input rows, so re-running on identical input reproduces the same table. -/
theorem tables_sorted_deterministic (rows : List SVORow) (rowsN : List NAdjRow)
    (rowsA : List AdjNRow) :
    (df_var_obj_sorted rows).Sorted (fun a b => b.variabilidade ≤ a.variabilidade) ∧
    (df_var_suj_sorted rows).Sorted (fun a b => b.variabilidade ≤ a.variabilidade) ∧
    (df_var_nome_sorted rowsN).Sorted (fun a b => b.variabilidade ≤ a.variabilidade) ∧
    (df_var_adj_sorted rowsN).Sorted (fun a b => b.variabilidade ≤ a.variabilidade) ∧
    (df_var_adjn_sorted rowsA).Sorted (fun a b => b.variabilidade ≤ a.variabilidade) ∧
    df_var_obj_sorted rows = df_var_obj_sorted rows ∧
    df_var_suj_sorted rows = df_var_suj_sorted rows ∧
    df_var_nome_sorted rowsN = df_var_nome_sorted rowsN ∧
    df_var_adj_sorted rowsN = df_var_adj_sorted rowsN ∧
    df_var_adjn_sorted rowsA = df_var_adjn_sorted rowsA :=
  ⟨List.sorted_insertionSort _ _, List.sorted_insertionSort _ _,
   List.sorted_insertionSort _ _, List.sorted_insertionSort _ _,
   List.sorted_insertionSort _ _, rfl, rfl, rfl, rfl, rfl⟩

/-- The coverage statistics of lines 361-364, generic in the row type:
`total = len(df)`, `desconhecidos` counts the rows whose `dominio` field
equals "desconhecido", and the result is
`100 * (total - desconhecidos) / total if total else 0`, with Python's
true division modelled over the rationals. -/
def percentagem {α : Type} (rows : List α) (dominio : α → String) : ℚ :=
  let total := rows.length
  let desconhecidos := (rows.filter (fun r => dominio r == "desconhecido")).length
  if total ≠ 0 then 100 * ((total : ℚ) - desconhecidos) / total else 0

/-- Claim C9: the coverage percentage equals
`100 * (total - unknown_count) / total` whenever `total` is non-zero and
is defined as `0` when `total = 0` (no division failure); consequently it
is `0` when every row is unknown and `100` when the dataset is non-empty
and no row is unknown. -/
theorem percentagem_spec {α : Type} (rows : List α) (dominio : α → String) :
    (rows.length = 0 → percentagem rows dominio = 0) ∧
    (rows.length ≠ 0 → percentagem rows dominio =
      100 * ((rows.length : ℚ) -
        ((rows.filter (fun r => dominio r == "desconhecido")).length : ℚ)) /
          (rows.length : ℚ)) ∧
    ((∀ r ∈ rows, dominio r = "desconhecido") → percentagem rows dominio = 0) ∧
    (rows.length ≠ 0 → (∀ r ∈ rows, dominio r ≠ "desconhecido") →
      percentagem rows dominio = 100) := by
  refine ⟨?_, ?_, ?_, ?_⟩
  · intro h
    simp [percentagem, h]
  · intro h
    simp [percentagem, h]
  · intro hall
    have hfil : rows.filter (fun r => dominio r == "desconhecido") = rows :=
      List.filter_eq_self.mpr (fun r hr => by simp [hall r hr])
    by_cases h : rows.length = 0
    · simp [percentagem, h]
    · have heq : percentagem rows dominio =
          100 * ((rows.length : ℚ) - (rows.length : ℚ)) / (rows.length : ℚ) := by
        simp [percentagem, h, hfil]
      rw [heq, sub_self, mul_zero, zero_div]
  · intro h hnone
    have hfil : rows.filter (fun r => dominio r == "desconhecido") = [] :=
      List.filter_eq_nil_iff.mpr (fun r hr => by simp [hnone r hr])
    have hQ : ((rows.length : ℚ)) ≠ 0 := by exact_mod_cast h
    have heq : percentagem rows dominio =
        100 * ((rows.length : ℚ) - 0) / (rows.length : ℚ) := by
      simp [percentagem, h, hfil]
    rw [heq, sub_zero, mul_div_assoc, div_self hQ, mul_one]

/-- Witness for claim C9 on a two-row dataset with one unknown row. -/
theorem percentagem_spec_witness :
    ((["desconhecido", "animal"] : List String).length = 0 →
      percentagem ["desconhecido", "animal"] id = 0) ∧
    ((["desconhecido", "animal"] : List String).length ≠ 0 →
      percentagem ["desconhecido", "animal"] id =
      100 * (((["desconhecido", "animal"] : List String).length : ℚ) -
        (((["desconhecido", "animal"] : List String).filter
          (fun r => id r == "desconhecido")).length : ℚ)) /
          (((["desconhecido", "animal"] : List String).length : ℚ))) ∧
    ((∀ r ∈ (["desconhecido", "animal"] : List String), id r = "desconhecido") →
      percentagem ["desconhecido", "animal"] id = 0) ∧
    ((["desconhecido", "animal"] : List String).length ≠ 0 →
      (∀ r ∈ (["desconhecido", "animal"] : List String), id r ≠ "desconhecido") →
      percentagem ["desconhecido", "animal"] id = 100) :=
  percentagem_spec ["desconhecido", "animal"] id

/-- Claim C10: in the n_adj pipeline the noun's domain is computed from
the noun lemma as extracted, before the lowercasing pass, while the
adjective's domain is computed from the already-lowercased adjective
lemma; the final row stores lowercased lemmas next to a noun domain that
came from the original-case form, so whenever classification differs
between the two casings of the noun, the stored noun domain is the
original-case one and disagrees with classifying the stored (lowercased)
noun field. -/
theorem processNAdj_casing (lookup : String → Except Unit (List Synset))
    (fraseOrig : String) (e : NAdj) :
    (processNAdj lookup fraseOrig e).dominio = (obter_dominios lookup e.nome).1 ∧
    (processNAdj lookup fraseOrig e).dominio_adjetivo =
      (obter_dominios lookup (lowerStr e.adjetivo)).1 ∧
    (processNAdj lookup fraseOrig e).nome = lowerStr e.nome ∧
    (processNAdj lookup fraseOrig e).adjetivo = lowerStr e.adjetivo ∧
    ((obter_dominios lookup e.nome).1 ≠ (obter_dominios lookup (lowerStr e.nome)).1 →
      (processNAdj lookup fraseOrig e).dominio ≠
        (obter_dominios lookup ((processNAdj lookup fraseOrig e).nome)).1) :=
  ⟨rfl, rfl, rfl, rfl, fun h => h⟩

/-- A lookup under which only the capitalised form "Gato" has a sense. -/
def exLookupCase : String → Except Unit (List Synset) :=
  fun w => if w == "Gato" then .ok [⟨"noun.animal"⟩] else .ok []

/-- Witness for claim C10 at the entry ("Gato", "Bom") under
`exLookupCase`, where the noun's classification genuinely differs between
its original-case and lowercased forms. -/
theorem processNAdj_casing_witness :
    (obter_dominios exLookupCase "Gato").1 ≠
      (obter_dominios exLookupCase (lowerStr "Gato")).1 ∧
    ((processNAdj exLookupCase "f" ⟨"f", "Gato", "Bom"⟩).dominio =
        (obter_dominios exLookupCase (NAdj.nome ⟨"f", "Gato", "Bom"⟩)).1 ∧
      (processNAdj exLookupCase "f" ⟨"f", "Gato", "Bom"⟩).dominio_adjetivo =
        (obter_dominios exLookupCase (lowerStr (NAdj.adjetivo ⟨"f", "Gato", "Bom"⟩))).1 ∧
      (processNAdj exLookupCase "f" ⟨"f", "Gato", "Bom"⟩).nome =
        lowerStr (NAdj.nome ⟨"f", "Gato", "Bom"⟩) ∧
      (processNAdj exLookupCase "f" ⟨"f", "Gato", "Bom"⟩).adjetivo =
        lowerStr (NAdj.adjetivo ⟨"f", "Gato", "Bom"⟩) ∧
      ((obter_dominios exLookupCase (NAdj.nome ⟨"f", "Gato", "Bom"⟩)).1 ≠
          (obter_dominios exLookupCase (lowerStr (NAdj.nome ⟨"f", "Gato", "Bom"⟩))).1 →
        (processNAdj exLookupCase "f" ⟨"f", "Gato", "Bom"⟩).dominio ≠
          (obter_dominios exLookupCase
            ((processNAdj exLookupCase "f" ⟨"f", "Gato", "Bom"⟩).nome)).1)) :=
  ⟨by decide, processNAdj_casing exLookupCase "f" ⟨"f", "Gato", "Bom"⟩⟩

/-- Concrete grouped rows: anchors with their observed domains. -/
def exPairs : List (String × String) :=
  [("comer", "animal"), ("comer", "comida"), ("ver", "animal")]

/-- Witness for claim C7 at the concrete rows `exPairs`. -/
theorem aggregate_spec_witness :
    ((aggregate exPairs Prod.fst Prod.snd).map (·.anchorV)).Nodup ∧
    (∀ v, v ∈ (aggregate exPairs Prod.fst Prod.snd).map (·.anchorV) ↔
      v ∈ exPairs.map Prod.fst) ∧
    (∀ rec ∈ aggregate exPairs Prod.fst Prod.snd,
      rec.variabilidade = rec.dominios.length ∧
      rec.dominios.Sorted (fun a b => strLe a b = true) ∧
      rec.dominios.Nodup ∧
      (∀ d, d ∈ rec.dominios ↔
        d ∈ (exPairs.filter (fun r => Prod.fst r == rec.anchorV)).map Prod.snd)) :=
  aggregate_spec exPairs Prod.fst Prod.snd

/-- Witness for claim C8 at the concrete rows `exRowsSVO` (and empty
n_adj / adj_n datasets). -/
theorem tables_sorted_deterministic_witness :
    (df_var_obj_sorted exRowsSVO).Sorted (fun a b => b.variabilidade ≤ a.variabilidade) ∧
    (df_var_suj_sorted exRowsSVO).Sorted (fun a b => b.variabilidade ≤ a.variabilidade) ∧
    (df_var_nome_sorted []).Sorted (fun a b => b.variabilidade ≤ a.variabilidade) ∧
    (df_var_adj_sorted []).Sorted (fun a b => b.variabilidade ≤ a.variabilidade) ∧
    (df_var_adjn_sorted []).Sorted (fun a b => b.variabilidade ≤ a.variabilidade) ∧
    df_var_obj_sorted exRowsSVO = df_var_obj_sorted exRowsSVO ∧
    df_var_suj_sorted exRowsSVO = df_var_suj_sorted exRowsSVO ∧
    df_var_nome_sorted [] = df_var_nome_sorted [] ∧
    df_var_adj_sorted [] = df_var_adj_sorted [] ∧
    df_var_adjn_sorted [] = df_var_adjn_sorted [] :=
  tables_sorted_deterministic exRowsSVO [] []
